import Mathlib

/-
  Verification development for the parametric-curve core of the
  geometric-modeling repository.

  The embedding models the three curve variants:
  * `ClosedSubdivisionCurve` (src/work/closedsubdivisioncurve.h):
    Lane-Riesenfeld refinement of a closed control polygon and
    table-lookup evaluation.
  * `MyB_spline` (src/work/mybspline.h): quadratic B-spline with a
    clamped uniform knot vector, recursive Cox-de Boor basis
    evaluation, and a least-squares fitting constructor.
  * `TorusKnot` (src/work/torusknot.h): the closed-form (2,3) torus
    knot with hand-derived first and second derivatives.

  3D float vectors are modelled as triples of rationals (all the
  subdivision / B-spline arithmetic is +, -, scalar product and
  division, which the idealized field ℚ models exactly); the torus
  knot uses ℝ because of the transcendental sin/cos.  A GMlib
  `DVector` is modelled as a `List`; `getD i 0` models raw indexed
  access.  The curves write their output into `_p`, a vector of
  dimension d+1 in which only some slots are assigned; a slot that the
  code never writes is modelled as `none`.
-/

/-- 3D vector of rationals, modelling GMlib::Vector<float,3>. -/
abbrev V3 : Type := ℚ × ℚ × ℚ

namespace ClosedSubdivisionCurve

/-- Step 1 of one Lane-Riesenfeld iteration: the doubled point list with
`newPoints[2i] = points[i]` and `newPoints[2i+1]` the midpoint of
`points[i]` and `points[(i+1) % numPoints]` (wrap around). -/
def insertMidpoints (pts : List V3) : List V3 :=
  (List.range (2 * pts.length)).map (fun j =>
    if j % 2 = 0 then pts.getD (j / 2) 0
    else (1/2 : ℚ) • (pts.getD (j / 2) 0 + pts.getD ((j / 2 + 1) % pts.length) 0))

/-- Step 2, one averaging pass: `smoothedPoints[i]` is the average of
`newPoints[i]` and `newPoints[(i - 1 + N) % N]`. -/
def averagePass (pts : List V3) : List V3 :=
  (List.range pts.length).map (fun i =>
    (1/2 : ℚ) • (pts.getD i 0 + pts.getD ((i + pts.length - 1) % pts.length) 0))

/-- One iteration of the outer loop of `laneRiesenfeldSubdivision`:
midpoint insertion followed by `degree - 1` averaging passes (the inner
loop runs for `avg = 1 .. degree-1`, reusing the same `_degree` field). -/
def refineOnce (degree : ℕ) (pts : List V3) : List V3 :=
  averagePass^[degree - 1] (insertMidpoints pts)

/-- The closure correction at the end of `laneRiesenfeldSubdivision`:
if there are at least two points, the last point is overwritten with the
first. -/
def forceClosure (pts : List V3) : List V3 :=
  if 1 < pts.length then pts.set (pts.length - 1) (pts.getD 0 0) else pts

/-- `ClosedSubdivisionCurve::laneRiesenfeldSubdivision`: `degree`
iterations of refinement starting from the control polygon, followed by
the closure correction.  The result is the stored `_subdividedPoints`. -/
def laneRiesenfeldSubdivision (controlPoints : List V3) (degree : ℕ) : List V3 :=
  forceClosure ((refineOnce degree)^[degree] controlPoints)

/-- `scaled_t = t * (_subdividedPoints.getDim() - 1)` in `eval`. -/
def scaled_t (table : List V3) (t : ℚ) : ℚ := t * ((table.length : ℚ) - 1)

/-- `index = static_cast<int>(std::floor(scaled_t)) % getDim()`.  C++ `%`
on `int` truncates toward zero, which is `Int.tmod`. -/
def index (table : List V3) (t : ℚ) : ℤ :=
  (⌊scaled_t table t⌋).tmod (table.length : ℤ)

/-- `alpha = scaled_t - index`, the interpolation weight. -/
def alpha (table : List V3) (t : ℚ) : ℚ := scaled_t table t - index table t

/-- `(index + 1) % getDim()`, the second interpolation index (also `next`
in the derivative branch). -/
def nextIdx (table : List V3) (t : ℚ) : ℤ :=
  (index table t + 1).tmod (table.length : ℤ)

/-- `prev = (index - 1 + getDim()) % getDim()` in the derivative branch. -/
def prevIdx (table : List V3) (t : ℚ) : ℤ :=
  (index table t - 1 + (table.length : ℤ)).tmod (table.length : ℤ)

/-- The position written to `_p[0]`:
`(1 - alpha) * p1 + alpha * p2` with `p1 = table[index]`,
`p2 = table[(index+1) % N]`. -/
def position (table : List V3) (t : ℚ) : V3 :=
  (1 - alpha table t) • table.getD (index table t).toNat 0
    + alpha table t • table.getD (nextIdx table t).toNat 0

/-- The first derivative written to `_p[1]` when `d > 0`:
`(table[next] - table[prev]) * 0.5`. -/
def deriv1 (table : List V3) (t : ℚ) : V3 :=
  (1/2 : ℚ) • (table.getD (nextIdx table t).toNat 0 - table.getD (prevIdx table t).toNat 0)

/-- `ClosedSubdivisionCurve::eval`: `_p` gets dimension `d+1`, slot 0 is
assigned the interpolated position, slot 1 the central difference when
`d > 0`, and every remaining slot is left unassigned (`none`). -/
def eval (table : List V3) (t : ℚ) (d : ℕ) : List (Option V3) :=
  let p0 := (List.replicate (d+1) (none : Option V3)).set 0 (some (position table t))
  if 0 < d then p0.set 1 (some (deriv1 table t)) else p0

end ClosedSubdivisionCurve

namespace SubdivisionSpec

/-
  Reference formulas stated in the specification for the subdivision
  curve's evaluation, written from the spec's own words (scale `t` to a
  continuous index `scaled = t*(N-1)`, `index = floor(scaled) mod N`
  with a mathematical modulus, `alpha` the fractional part, linear
  interpolation, and a central difference scaled by 0.5).  They are the
  comparison point for the refinement claim about `eval`.
-/

/-- Spec: `scaled = t * (N - 1)`. -/
def scaled (table : List V3) (t : ℚ) : ℚ := t * ((table.length : ℚ) - 1)

/-- Spec: `index = floor(scaled) mod N` (mathematical modulus). -/
def idx (table : List V3) (t : ℚ) : ℤ := ⌊scaled table t⌋ % (table.length : ℤ)

/-- Spec: `alpha` is the fractional part of `scaled`. -/
def frac (table : List V3) (t : ℚ) : ℚ := Int.fract (scaled table t)

/-- Spec: linear interpolation between `table[index]` and
`table[(index+1) mod N]`. -/
def position (table : List V3) (t : ℚ) : V3 :=
  (1 - frac table t) • table.getD (idx table t).toNat 0
    + frac table t • table.getD (((idx table t + 1) % (table.length : ℤ)).toNat) 0

/-- Spec: central difference between `table[(index+1) mod N]` and
`table[(index-1) mod N]`, scaled by 0.5. -/
def deriv1 (table : List V3) (t : ℚ) : V3 :=
  (1/2 : ℚ) • (table.getD (((idx table t + 1) % (table.length : ℤ)).toNat) 0
    - table.getD (((idx table t - 1) % (table.length : ℤ)).toNat) 0)

end SubdivisionSpec

namespace MyB_spline

/-- `MyB_spline::generateKnotVector` for `n` control points and fixed
degree `k = 2`: `m = n + k + 1` knots; indices `0..k` get `0`, indices
`k+1 .. m-(k+1)-1` get `i - k`, indices `m-(k+1) .. m-1` get
`maxValue = m - 2*(k+1) + 1`.  The three loops of the source cover the
index ranges of the three branches. -/
def generateKnotVector (n : ℕ) : List ℚ :=
  (List.range (n + 2 + 1)).map (fun i =>
    if i ≤ 2 then (0 : ℚ)
    else if i < (n + 2 + 1) - (2 + 1) then (((i : ℤ) - 2 : ℤ) : ℚ)
    else ((((n + 2 + 1 : ℕ) : ℤ) - 2 * (2 + 1) + 1 : ℤ) : ℚ))

/-- Indexed access `_knotVector[i]` for the curve with `n` control
points. -/
def knot (n i : ℕ) : ℚ := (generateKnotVector n).getD i 0

/-- `MyB_spline::evaluateBasis`, the recursive Cox-de Boor evaluation.
Base case (degree 0): `1` on the half-open span
`[knot[i], knot[i+1])`, with the closure exception at
`t = _knotVector[last]` for `i = n - 1`.  Recursive case: the two terms
are guarded by division-by-zero checks that contribute `0` when a knot
span has zero width. -/
def evaluateBasis (n : ℕ) : ℕ → ℕ → ℚ → ℚ
  | i, 0, t =>
      if (knot n i ≤ t ∧ t < knot n (i+1)) ∨ (t = knot n (n+2) ∧ i = n - 1)
      then 1 else 0
  | i, d+1, t =>
      (if knot n (i+d+1) - knot n i ≠ 0
        then (t - knot n i) / (knot n (i+d+1) - knot n i) * evaluateBasis n i d t
        else 0)
      + (if knot n (i+d+2) - knot n (i+1) ≠ 0
        then (knot n (i+d+2) - t) / (knot n (i+d+2) - knot n (i+1)) * evaluateBasis n (i+1) d t
        else 0)

/-- The position `_p[0]` computed by `MyB_spline::eval`: the sum of each
control point weighted by its degree-2 basis value. -/
def position (cps : List V3) (t : ℚ) : V3 :=
  ∑ i in Finset.range cps.length, evaluateBasis cps.length i 2 t • cps.getD i 0

/-- `MyB_spline::eval`: `_p` gets dimension `d+1` but only slot 0 is ever
assigned; every other slot stays unassigned (`none`). -/
def eval (cps : List V3) (t : ℚ) (d : ℕ) : List (Option V3) :=
  (List.replicate (d+1) (none : Option V3)).set 0 (some (position cps t))

/-- `MyB_spline::getStartP`, `_knotVector[2]`. -/
def getStartP (n : ℕ) : ℚ := (generateKnotVector n).getD 2 0

/-- `MyB_spline::getEndP`, `_knotVector[getDim() - 3]`. -/
def getEndP (n : ℕ) : ℚ :=
  (generateKnotVector n).getD ((generateKnotVector n).length - 3) 0

/-- The knot vector visible to `leastSquaresFit` when constructor 2
runs: the constructor calls `leastSquaresFit(p, n)` *before*
`generateKnotVector()`, so `_knotVector` still has dimension 0 and every
access in the fit is out of bounds.  Out-of-bounds reads are modelled by
`getD _ 0`. -/
def knotsAtFitTime : List ℚ := []

/-- The sample parameter `t = i / (m - 1)` used by `leastSquaresFit`. -/
def fitParam (m i : ℕ) : ℚ := (i : ℚ) / ((m : ℚ) - 1)

/-- The span search of `leastSquaresFit`: the first `j` in `k .. n-1`
with `kv[j] <= t < kv[j+1]`, and `n - 1` when the scan finds none
(`span == -1` fallback). -/
def findSpan (kv : List ℚ) (n : ℕ) (t : ℚ) : ℕ :=
  (((List.range' 2 (n - 2)).find?
      (fun j => decide (kv.getD j 0 ≤ t ∧ t < kv.getD (j+1) 0))).getD (n - 1))

/-- The body of the `d` loop of the iterative Cox-de Boor recurrence in
`leastSquaresFit`: `left`/`right` are computed once per `d`, then the
`r` loop updates `N_i[r]` and `saved`, and finally `N_i[d] = saved`. -/
def basisRowStep (kv : List ℚ) (span : ℕ) (t : ℚ) (d : ℕ) (Ni : List ℚ) : List ℚ :=
  let left := t - kv.getD (span + 1 - d) 0
  let right := kv.getD (span + d) 0 - t
  let res := (List.range d).foldl (fun (st : List ℚ × ℚ) r =>
    let temp := (st.1.getD r 0) / (kv.getD (span + r + 1) 0 - kv.getD (span + 1 - d + r) 0)
    (st.1.set r (st.2 + right * temp), left * temp)) (Ni, 0)
  res.1.set d res.2

/-- The row of local basis weights `N_i` computed by `leastSquaresFit`
for one sample: `N_i = [1, 0, 0]` initially, then the `d` loop for
`d = 1, 2`. -/
def fitBasisRow (kv : List ℚ) (span : ℕ) (t : ℚ) : List ℚ :=
  (List.range' 1 2).foldl (fun Ni d => basisRowStep kv span t d Ni) ([1, 0, 0] : List ℚ)

end MyB_spline

namespace TorusKnot

/-- The position computed by `TorusKnot::eval` with the fixed constants
`R = 2.0`, `p = 2`, `q = 3`:
`((R + cos(qt)) cos(pt), (R + cos(qt)) sin(pt), sin(qt))`. -/
noncomputable def position (t : ℝ) : ℝ × ℝ × ℝ :=
  ((2 + Real.cos (3 * t)) * Real.cos (2 * t),
   (2 + Real.cos (3 * t)) * Real.sin (2 * t),
   Real.sin (3 * t))

/-- The first derivative written to `_p[1]` when `d > 0`, exactly as the
source spells it out:
`dx = -p (R + cos qt) sin pt - q sin qt cos pt`,
`dy =  p (R + cos qt) cos pt - q sin qt sin pt`,
`dz =  q cos qt`. -/
noncomputable def deriv1 (t : ℝ) : ℝ × ℝ × ℝ :=
  (-2 * (2 + Real.cos (3 * t)) * Real.sin (2 * t) - 3 * Real.sin (3 * t) * Real.cos (2 * t),
   2 * (2 + Real.cos (3 * t)) * Real.cos (2 * t) - 3 * Real.sin (3 * t) * Real.sin (2 * t),
   3 * Real.cos (3 * t))

/-- The second derivative written to `_p[2]` when `d > 1`:
`xpp = partA + partB`, `ypp = partC + partD`, `zpp = -q^2 sin qt`, with
the four parts exactly as in the source. -/
noncomputable def deriv2 (t : ℝ) : ℝ × ℝ × ℝ :=
  (-2 * (2 * (2 + Real.cos (3 * t)) * Real.cos (2 * t) - 3 * Real.sin (3 * t) * Real.sin (2 * t))
     + -3 * (3 * Real.cos (3 * t) * Real.cos (2 * t) - 2 * Real.sin (3 * t) * Real.sin (2 * t)),
   2 * (-2 * (2 + Real.cos (3 * t)) * Real.sin (2 * t) - 3 * Real.sin (3 * t) * Real.cos (2 * t))
     + -3 * (3 * Real.cos (3 * t) * Real.sin (2 * t) + 2 * Real.sin (3 * t) * Real.cos (2 * t)),
   -(3 * 3) * Real.sin (3 * t))

/-- `TorusKnot::eval`: slot 0 always gets the position, slot 1 the first
derivative when `d > 0`, slot 2 the second derivative when `d > 1`;
remaining slots stay unassigned. -/
noncomputable def eval (t : ℝ) (d : ℕ) : List (Option (ℝ × ℝ × ℝ)) :=
  let p0 := (List.replicate (d+1) (none : Option (ℝ × ℝ × ℝ))).set 0 (some (position t))
  let p1 := if 0 < d then p0.set 1 (some (deriv1 t)) else p0
  if 1 < d then p1.set 2 (some (deriv2 t)) else p1

/-- `TorusKnot::getEndP`, `6 π`(the full (2,3) knot). -/
noncomputable def getEndP : ℝ := 6 * Real.pi

end TorusKnot

/-- The 4-point unit-square control polygon used by the spec's example
scenario. -/
def squarePts : List V3 := [(0, 0, 0), (1, 0, 0), (1, 1, 0), (0, 1, 0)]

/-- A small 3-point control polygon used as a concrete evaluation
input. -/
def triPts : List V3 := [(0, 0, 0), (1, 0, 0), (0, 1, 0)]

namespace ClosedSubdivisionCurve

lemma length_insertMidpoints (pts : List V3) :
    (insertMidpoints pts).length = 2 * pts.length := by
  simp [insertMidpoints]

lemma length_averagePass (pts : List V3) :
    (averagePass pts).length = pts.length := by
  simp [averagePass]

lemma length_iterate_averagePass (k : ℕ) (pts : List V3) :
    (averagePass^[k] pts).length = pts.length := by
  induction k generalizing pts with
  | zero => rfl
  | succ k ih => rw [Function.iterate_succ_apply, ih, length_averagePass]

lemma length_refineOnce (g : ℕ) (pts : List V3) :
    (refineOnce g pts).length = 2 * pts.length := by
  rw [refineOnce, length_iterate_averagePass, length_insertMidpoints]

lemma length_iterate_refineOnce (g k : ℕ) (pts : List V3) :
    ((refineOnce g)^[k] pts).length = 2 ^ k * pts.length := by
  induction k generalizing pts with
  | zero => simp
  | succ k ih =>
    rw [Function.iterate_succ_apply, ih, length_refineOnce]
    ring

lemma length_forceClosure (pts : List V3) :
    (forceClosure pts).length = pts.length := by
  rw [forceClosure]
  split <;> simp

lemma length_laneRiesenfeldSubdivision (pts : List V3) (g : ℕ) :
    (laneRiesenfeldSubdivision pts g).length = 2 ^ g * pts.length := by
  rw [laneRiesenfeldSubdivision, length_forceClosure, length_iterate_refineOnce]

lemma getD_forceClosure_zero (pts : List V3) (h : 2 ≤ pts.length) :
    (forceClosure pts).getD 0 0 = pts.getD 0 0 := by
  rw [forceClosure, if_pos (by omega)]
  simp [List.getD, List.getElem?_set_ne (by omega : pts.length - 1 ≠ 0)]

lemma getD_forceClosure_last (pts : List V3) (h : 2 ≤ pts.length) :
    (forceClosure pts).getD (pts.length - 1) 0 = pts.getD 0 0 := by
  rw [forceClosure, if_pos (by omega)]
  rw [List.getD_eq_getElem?_getD, List.getElem?_set_self (by omega)]
  rfl

lemma lrs_last_eq_first (pts : List V3) (g : ℕ) (h : 2 ≤ pts.length) :
    (laneRiesenfeldSubdivision pts g).getD ((laneRiesenfeldSubdivision pts g).length - 1) 0
      = (laneRiesenfeldSubdivision pts g).getD 0 0 := by
  have hlen : ((refineOnce g)^[g] pts).length = 2 ^ g * pts.length :=
    length_iterate_refineOnce g g pts
  have h2 : 2 ≤ ((refineOnce g)^[g] pts).length := by
    rw [hlen]
    have : 1 ≤ 2 ^ g := Nat.one_le_two_pow
    nlinarith
  rw [laneRiesenfeldSubdivision, length_forceClosure,
    getD_forceClosure_last _ h2, getD_forceClosure_zero _ h2]

lemma position_at_int (table : List V3) (t : ℚ) (j : ℕ)
    (hN : 2 ≤ table.length) (hj : j < table.length)
    (ht : scaled_t table t = (j : ℚ)) :
    position table t = table.getD j 0 := by
  have hfl : ⌊scaled_t table t⌋ = (j : ℤ) := by
    rw [ht]
    exact_mod_cast Int.floor_natCast j
  have hidx : index table t = (j : ℤ) := by
    rw [index, hfl, Int.tmod_eq_emod (by positivity) (by positivity),
      Int.emod_eq_of_lt (by positivity) (by exact_mod_cast hj)]
  have halpha : alpha table t = 0 := by
    rw [alpha, hidx, ht]
    push_cast
    ring
  rw [position, halpha, hidx]
  simp

lemma position_zero (table : List V3) (hN : 2 ≤ table.length) :
    position table 0 = table.getD 0 0 := by
  refine position_at_int table 0 0 hN (by omega) ?_
  rw [scaled_t]
  push_cast
  ring

lemma position_one (table : List V3) (hN : 2 ≤ table.length) :
    position table 1 = table.getD (table.length - 1) 0 := by
  refine position_at_int table 1 (table.length - 1) hN (by omega) ?_
  rw [scaled_t]
  have : (1:ℕ) ≤ table.length := by omega
  push_cast [this]
  ring

end ClosedSubdivisionCurve

namespace ClosedSubdivisionCurve

lemma floor_scaled_nonneg (table : List V3) (t : ℚ)
    (hN : 2 ≤ table.length) (h0 : 0 ≤ t) :
    0 ≤ ⌊scaled_t table t⌋ := by
  apply Int.floor_nonneg.mpr
  rw [scaled_t]
  have : (1:ℚ) ≤ (table.length : ℚ) := by exact_mod_cast Nat.one_le_iff_ne_zero.mpr (by omega)
  nlinarith

lemma floor_scaled_lt (table : List V3) (t : ℚ)
    (hN : 2 ≤ table.length) (h0 : 0 ≤ t) (h1 : t ≤ 1) :
    ⌊scaled_t table t⌋ < (table.length : ℤ) := by
  have hle : scaled_t table t ≤ (table.length : ℚ) - 1 := by
    rw [scaled_t]
    have : (1:ℚ) ≤ (table.length : ℚ) := by exact_mod_cast Nat.one_le_iff_ne_zero.mpr (by omega)
    nlinarith
  have : ⌊scaled_t table t⌋ ≤ ⌊(table.length : ℚ) - 1⌋ := Int.floor_le_floor hle
  have heq : ⌊(table.length : ℚ) - 1⌋ = (table.length : ℤ) - 1 := by
    rw [show ((table.length : ℚ) - 1) = (((table.length : ℤ) - 1 : ℤ) : ℚ) by push_cast; ring,
      Int.floor_intCast]
  omega

lemma index_eq_floor (table : List V3) (t : ℚ)
    (hN : 2 ≤ table.length) (h0 : 0 ≤ t) (h1 : t ≤ 1) :
    index table t = ⌊scaled_t table t⌋ := by
  have hnn := floor_scaled_nonneg table t hN h0
  have hlt := floor_scaled_lt table t hN h0 h1
  rw [index, Int.tmod_eq_emod hnn (by positivity), Int.emod_eq_of_lt hnn hlt]

lemma index_bounds (table : List V3) (t : ℚ)
    (hN : 2 ≤ table.length) (h0 : 0 ≤ t) (h1 : t ≤ 1) :
    0 ≤ index table t ∧ index table t < (table.length : ℤ) := by
  rw [index_eq_floor table t hN h0 h1]
  exact ⟨floor_scaled_nonneg table t hN h0, floor_scaled_lt table t hN h0 h1⟩

lemma nextIdx_eq_emod (table : List V3) (t : ℚ)
    (hN : 2 ≤ table.length) (h0 : 0 ≤ t) (h1 : t ≤ 1) :
    nextIdx table t = (⌊scaled_t table t⌋ + 1) % (table.length : ℤ) := by
  obtain ⟨hnn, hlt⟩ := index_bounds table t hN h0 h1
  rw [nextIdx, Int.tmod_eq_emod (by omega) (by positivity),
    index_eq_floor table t hN h0 h1]

lemma nextIdx_bounds (table : List V3) (t : ℚ)
    (hN : 2 ≤ table.length) (h0 : 0 ≤ t) (h1 : t ≤ 1) :
    0 ≤ nextIdx table t ∧ nextIdx table t < (table.length : ℤ) := by
  rw [nextIdx_eq_emod table t hN h0 h1]
  have hpos : (0:ℤ) < (table.length : ℤ) := by positivity
  exact ⟨Int.emod_nonneg _ (by omega), Int.emod_lt_of_pos _ hpos⟩

lemma prevIdx_eq_emod (table : List V3) (t : ℚ)
    (hN : 2 ≤ table.length) (h0 : 0 ≤ t) (h1 : t ≤ 1) :
    prevIdx table t = (⌊scaled_t table t⌋ - 1) % (table.length : ℤ) := by
  obtain ⟨hnn, hlt⟩ := index_bounds table t hN h0 h1
  rw [prevIdx, Int.tmod_eq_emod (by omega) (by positivity),
    index_eq_floor table t hN h0 h1]
  have : ⌊scaled_t table t⌋ - 1 + (table.length : ℤ)
      = ⌊scaled_t table t⌋ - 1 + (table.length : ℤ) * 1 := by ring
  rw [this, Int.add_mul_emod_self_left]

lemma prevIdx_bounds (table : List V3) (t : ℚ)
    (hN : 2 ≤ table.length) (h0 : 0 ≤ t) (h1 : t ≤ 1) :
    0 ≤ prevIdx table t ∧ prevIdx table t < (table.length : ℤ) := by
  rw [prevIdx_eq_emod table t hN h0 h1]
  have hpos : (0:ℤ) < (table.length : ℤ) := by positivity
  exact ⟨Int.emod_nonneg _ (by omega), Int.emod_lt_of_pos _ hpos⟩

lemma alpha_eq_fract (table : List V3) (t : ℚ)
    (hN : 2 ≤ table.length) (h0 : 0 ≤ t) (h1 : t ≤ 1) :
    alpha table t = Int.fract (scaled_t table t) := by
  rw [alpha, index_eq_floor table t hN h0 h1]
  rfl

lemma sd_eval_getD_zero (table : List V3) (t : ℚ) (d : ℕ) :
    (eval table t d).getD 0 none = some (position table t) := by
  rw [eval]
  have hlen : 0 < ((List.replicate (d+1) (none : Option V3)).set 0
      (some (position table t))).length := by simp
  split
  · rw [List.getD_eq_getElem?_getD, List.getElem?_set_ne (by omega : (1:ℕ) ≠ 0),
      ← List.getD_eq_getElem?_getD, List.getD_eq_getElem?_getD,
      List.getElem?_set_self (by simpa using hlen)]
    rfl
  · rw [List.getD_eq_getElem?_getD, List.getElem?_set_self (by simpa using hlen)]
    rfl

lemma sd_eval_getD_one (table : List V3) (t : ℚ) (d : ℕ) (hd : 1 ≤ d) :
    (eval table t d).getD 1 none = some (deriv1 table t) := by
  rw [eval]
  rw [if_pos (by omega : 0 < d)]
  rw [List.getD_eq_getElem?_getD, List.getElem?_set_self (by simp; omega)]
  rfl

lemma eval_getD_ge_two (table : List V3) (t : ℚ) (d j : ℕ)
    (h2 : 2 ≤ j) (hjd : j ≤ d) :
    (eval table t d).getD j (some 0) = none := by
  rw [eval]
  have hrep : (List.replicate (d+1) (none : Option V3))[j]? = some none := by
    rw [List.getElem?_replicate]
    simp
    omega
  split
  · rw [List.getD_eq_getElem?_getD, List.getElem?_set_ne (by omega : (1:ℕ) ≠ j),
      List.getElem?_set_ne (by omega : (0:ℕ) ≠ j), hrep]
    rfl
  · rw [List.getD_eq_getElem?_getD, List.getElem?_set_ne (by omega : (0:ℕ) ≠ j), hrep]
    rfl

end ClosedSubdivisionCurve

namespace MyB_spline

lemma bs_eval_getD_zero (cps : List V3) (t : ℚ) (d : ℕ) :
    (eval cps t d).getD 0 none = some (position cps t) := by
  rw [eval, List.getD_eq_getElem?_getD, List.getElem?_set_self (by simp)]
  rfl

lemma eval_getD_pos (cps : List V3) (t : ℚ) (d j : ℕ)
    (h1 : 1 ≤ j) (hjd : j ≤ d) :
    (eval cps t d).getD j (some 0) = none := by
  rw [eval, List.getD_eq_getElem?_getD, List.getElem?_set_ne (by omega : (0:ℕ) ≠ j),
    List.getElem?_replicate, if_pos (by omega : j < d + 1)]
  rfl

lemma length_generateKnotVector (n : ℕ) :
    (generateKnotVector n).length = n + 2 + 1 := by
  simp [generateKnotVector]

lemma getD_map_range (f : ℕ → ℚ) (n i : ℕ) (d : ℚ) (h : i < n) :
    ((List.range n).map f).getD i d = f i := by
  have h2 : i < ((List.range n).map f).length := by simpa using h
  rw [List.getD_eq_getElem _ _ h2]
  simp

lemma knot_eq_clamp (n i : ℕ) (h3 : 3 ≤ n) (hi : i < n + 3) :
    knot n i = ((max 0 (min ((i : ℤ) - 2) ((n : ℤ) - 2)) : ℤ) : ℚ) := by
  rw [knot, generateKnotVector, getD_map_range _ _ _ _ (by omega)]
  split_ifs with hc1 hc2
  · rw [show (max 0 (min ((i : ℤ) - 2) ((n : ℤ) - 2)) : ℤ) = 0 by omega]
    norm_num
  · rw [show (max 0 (min ((i : ℤ) - 2) ((n : ℤ) - 2)) : ℤ) = (i : ℤ) - 2 by omega]
  · rw [show (max 0 (min ((i : ℤ) - 2) ((n : ℤ) - 2)) : ℤ) = (n : ℤ) - 2 by omega]
    congr 1
    omega

lemma knot_mono (n : ℕ) (h3 : 3 ≤ n) {i j : ℕ} (hij : i ≤ j) (hj : j < n + 3) :
    knot n i ≤ knot n j := by
  rw [knot_eq_clamp n i h3 (by omega), knot_eq_clamp n j h3 hj]
  have : (max 0 (min ((i : ℤ) - 2) ((n : ℤ) - 2)) : ℤ)
      ≤ max 0 (min ((j : ℤ) - 2) ((n : ℤ) - 2)) := by
    have : (i : ℤ) ≤ (j : ℤ) := by exact_mod_cast hij
    omega
  exact_mod_cast this

lemma knot_le_max (n : ℕ) (h3 : 3 ≤ n) {i : ℕ} (hi : i < n + 3) :
    knot n i ≤ (n : ℚ) - 2 := by
  rw [knot_eq_clamp n i h3 hi]
  have h1 : (max 0 (min ((i : ℤ) - 2) ((n : ℤ) - 2)) : ℤ) ≤ (n : ℤ) - 2 := by omega
  have h2 : ((max 0 (min ((i : ℤ) - 2) ((n : ℤ) - 2)) : ℤ) : ℚ) ≤ (((n : ℤ) - 2 : ℤ) : ℚ) := by
    exact_mod_cast h1
  calc ((max 0 (min ((i : ℤ) - 2) ((n : ℤ) - 2)) : ℤ) : ℚ)
      ≤ (((n : ℤ) - 2 : ℤ) : ℚ) := h2
    _ = (n : ℚ) - 2 := by push_cast; ring

lemma knot_two (n : ℕ) (h3 : 3 ≤ n) : knot n 2 = 0 := by
  rw [knot_eq_clamp n 2 h3 (by omega)]
  norm_num

lemma knot_last_three (n : ℕ) (h3 : 3 ≤ n) {i : ℕ} (hn : n ≤ i) (hi : i < n + 3) :
    knot n i = (n : ℚ) - 2 := by
  rw [knot_eq_clamp n i h3 hi]
  have hni : (n : ℤ) ≤ (i : ℤ) := by exact_mod_cast hn
  rw [show (max 0 (min ((i : ℤ) - 2) ((n : ℤ) - 2)) : ℤ) = (n : ℤ) - 2 by omega]
  push_cast
  ring

lemma knot_pred (n : ℕ) (h3 : 3 ≤ n) : knot n (n - 1) = (n : ℚ) - 3 := by
  rw [knot_eq_clamp n (n - 1) h3 (by omega)]
  have hc : ((n - 1 : ℕ) : ℤ) = (n : ℤ) - 1 := by
    push_cast [Nat.cast_sub (by omega : 1 ≤ n)]
    ring
  rw [hc, show (max 0 (min ((n : ℤ) - 1 - 2) ((n : ℤ) - 2)) : ℤ) = (n : ℤ) - 3 by omega]
  push_cast
  ring

lemma getStartP_eq (n : ℕ) (h3 : 3 ≤ n) : getStartP n = 0 := by
  rw [getStartP, ← knot]
  exact knot_two n h3

lemma getEndP_eq (n : ℕ) (h3 : 3 ≤ n) : getEndP n = (n : ℚ) - 2 := by
  rw [getEndP, length_generateKnotVector, show n + 2 + 1 - 3 = n by omega, ← knot]
  exact knot_last_three n h3 (by omega) (by omega)

end MyB_spline

namespace MyB_spline

lemma evaluateBasis_zero (n i : ℕ) (t : ℚ) :
    evaluateBasis n i 0 t =
      if (knot n i ≤ t ∧ t < knot n (i+1)) ∨ (t = knot n (n+2) ∧ i = n - 1)
      then 1 else 0 := by
  rw [evaluateBasis]

lemma evaluateBasis_succ (n i d : ℕ) (t : ℚ) :
    evaluateBasis n i (d+1) t =
      (if knot n (i+d+1) - knot n i ≠ 0
        then (t - knot n i) / (knot n (i+d+1) - knot n i) * evaluateBasis n i d t
        else 0)
      + (if knot n (i+d+2) - knot n (i+1) ≠ 0
        then (knot n (i+d+2) - t) / (knot n (i+d+2) - knot n (i+1)) * evaluateBasis n (i+1) d t
        else 0) := by
  rw [evaluateBasis]

lemma knot_np2 (n : ℕ) (h3 : 3 ≤ n) : knot n (n+2) = (n : ℚ) - 2 :=
  knot_last_three n h3 (by omega) (by omega)

lemma basis_support (n : ℕ) (h3 : 3 ≤ n) :
    ∀ (d i : ℕ) (t : ℚ), i + d + 1 ≤ n + 2 → t < (n : ℚ) - 2 →
      (t < knot n i ∨ knot n (i + d + 1) ≤ t) → evaluateBasis n i d t = 0 := by
  intro d
  induction d with
  | zero =>
    intro i t hb ht hdisj
    rw [evaluateBasis_zero, if_neg]
    push_neg
    constructor
    · intro hge
      rcases hdisj with h | h
      · exact absurd hge (not_le.mpr h)
      · exact (by simpa using h : knot n (i + 1) ≤ t)
    · intro hend
      rw [knot_np2 n h3] at hend
      exact absurd hend (ne_of_lt ht)
  | succ d ih =>
    intro i t hb ht hdisj
    rw [evaluateBasis_succ]
    have h1 : evaluateBasis n i d t = 0 := by
      refine ih i t (by omega) ht ?_
      rcases hdisj with h | h
      · exact Or.inl h
      · exact Or.inr (le_trans (knot_mono n h3 (by omega) (by omega)) h)
    have h2 : evaluateBasis n (i+1) d t = 0 := by
      refine ih (i+1) t (by omega) ht ?_
      rcases hdisj with h | h
      · exact Or.inl (lt_of_lt_of_le h (knot_mono n h3 (by omega) (by omega)))
      · exact Or.inr (by rw [show i + 1 + d + 1 = i + (d + 1) + 1 by ring]; exact h)
    rw [h1, h2]
    split_ifs <;> simp

end MyB_spline

namespace MyB_spline

lemma evaluateBasis_one (n i : ℕ) (t : ℚ) :
    evaluateBasis n i 1 t =
      (if knot n (i+1) - knot n i ≠ 0
        then (t - knot n i) / (knot n (i+1) - knot n i) * evaluateBasis n i 0 t
        else 0)
      + (if knot n (i+2) - knot n (i+1) ≠ 0
        then (knot n (i+2) - t) / (knot n (i+2) - knot n (i+1)) * evaluateBasis n (i+1) 0 t
        else 0) := by
  simpa using evaluateBasis_succ n i 0 t

lemma evaluateBasis_two (n i : ℕ) (t : ℚ) :
    evaluateBasis n i 2 t =
      (if knot n (i+2) - knot n i ≠ 0
        then (t - knot n i) / (knot n (i+2) - knot n i) * evaluateBasis n i 1 t
        else 0)
      + (if knot n (i+3) - knot n (i+1) ≠ 0
        then (knot n (i+3) - t) / (knot n (i+3) - knot n (i+1)) * evaluateBasis n (i+1) 1 t
        else 0) := by
  simpa using evaluateBasis_succ n i 1 t

lemma basis0_active (n a i : ℕ) (t : ℚ) (h3 : 3 ≤ n) (ha2 : 2 ≤ a) (han : a < n)
    (hlow : knot n a ≤ t) (hhigh : t < knot n (a+1)) (hi : i ≤ n + 1) :
    evaluateBasis n i 0 t = if i = a then 1 else 0 := by
  have htop : t < (n : ℚ) - 2 := lt_of_lt_of_le hhigh (knot_le_max n h3 (by omega))
  rw [evaluateBasis_zero]
  by_cases hia : i = a
  · subst hia
    rw [if_pos (Or.inl ⟨hlow, hhigh⟩), if_pos rfl]
  · have hnot : ¬((knot n i ≤ t ∧ t < knot n (i+1)) ∨ (t = knot n (n+2) ∧ i = n - 1)) := by
      rintro (⟨hle, hlt⟩ | ⟨hend, _⟩)
      · rcases lt_or_gt_of_ne hia with hlt2 | hgt
        · exact absurd hlt (not_lt.mpr (le_trans (knot_mono n h3 (by omega) (by omega)) hlow))
        · exact absurd hle (not_le.mpr (lt_of_lt_of_le hhigh (knot_mono n h3 (by omega) (by omega))))
      · rw [knot_np2 n h3] at hend
        exact absurd hend (ne_of_lt htop)
    rw [if_neg hnot, if_neg hia]

lemma basis1_active (n a : ℕ) (t : ℚ) (h3 : 3 ≤ n) (ha2 : 2 ≤ a) (han : a < n)
    (hlow : knot n a ≤ t) (hhigh : t < knot n (a+1)) :
    evaluateBasis n (a-1) 1 t = (knot n (a+1) - t) / (knot n (a+1) - knot n a)
    ∧ evaluateBasis n a 1 t = (t - knot n a) / (knot n (a+1) - knot n a) := by
  have hD : knot n (a+1) - knot n a ≠ 0 := ne_of_gt (sub_pos.mpr (lt_of_le_of_lt hlow hhigh))
  have hB0a : evaluateBasis n a 0 t = 1 := by
    rw [basis0_active n a a t h3 ha2 han hlow hhigh (by omega), if_pos rfl]
  have hB0l : evaluateBasis n (a-1) 0 t = 0 := by
    rw [basis0_active n a (a-1) t h3 ha2 han hlow hhigh (by omega), if_neg (by omega)]
  have hB0r : evaluateBasis n (a+1) 0 t = 0 := by
    rw [basis0_active n a (a+1) t h3 ha2 han hlow hhigh (by omega), if_neg (by omega)]
  have e1 : a - 1 + 1 = a := by omega
  have e2 : a - 1 + 2 = a + 1 := by omega
  constructor
  · rw [evaluateBasis_one, e1, e2, hB0l, hB0a, if_pos hD]
    simp [mul_zero, mul_one]
  · rw [evaluateBasis_one, hB0a, hB0r, if_pos hD]
    simp [mul_zero, mul_one]

lemma basis2_window_sum (n a : ℕ) (t : ℚ) (h3 : 3 ≤ n) (ha2 : 2 ≤ a) (han : a < n)
    (hlow : knot n a ≤ t) (hhigh : t < knot n (a+1)) :
    evaluateBasis n (a-2) 2 t + evaluateBasis n (a-1) 2 t + evaluateBasis n a 2 t = 1 := by
  have htop : t < (n : ℚ) - 2 := lt_of_lt_of_le hhigh (knot_le_max n h3 (by omega))
  have hspan : knot n a < knot n (a+1) := lt_of_le_of_lt hlow hhigh
  have hD : knot n (a+1) - knot n a ≠ 0 := ne_of_gt (sub_pos.mpr hspan)
  have hm1 : knot n (a-1) ≤ knot n a := knot_mono n h3 (by omega) (by omega)
  have hm2 : knot n (a+1) ≤ knot n (a+2) := knot_mono n h3 (by omega) (by omega)
  have hD1 : knot n (a+1) - knot n (a-1) ≠ 0 := by
    have : 0 < knot n (a+1) - knot n (a-1) := by linarith
    exact ne_of_gt this
  have hD2 : knot n (a+2) - knot n a ≠ 0 := by
    have : 0 < knot n (a+2) - knot n a := by linarith
    exact ne_of_gt this
  have hZ1 : evaluateBasis n (a-2) 1 t = 0 := by
    refine basis_support n h3 1 (a-2) t (by omega) htop (Or.inr ?_)
    rw [show a - 2 + 1 + 1 = a by omega]
    exact hlow
  have hZ2 : evaluateBasis n (a+1) 1 t = 0 := by
    exact basis_support n h3 1 (a+1) t (by omega) htop (Or.inl hhigh)
  obtain ⟨hL, hR⟩ := basis1_active n a t h3 ha2 han hlow hhigh
  have f1 : a - 2 + 2 = a := by omega
  have f2 : a - 2 + 3 = a + 1 := by omega
  have f3 : a - 2 + 1 = a - 1 := by omega
  have g1 : a - 1 + 2 = a + 1 := by omega
  have g2 : a - 1 + 3 = a + 2 := by omega
  have g3 : a - 1 + 1 = a := by omega
  have hB2l : evaluateBasis n (a-2) 2 t
      = (knot n (a+1) - t) / (knot n (a+1) - knot n (a-1)) * evaluateBasis n (a-1) 1 t := by
    rw [evaluateBasis_two n (a-2) t, f1, f2, f3, hZ1, if_pos hD1]
    split_ifs <;> simp
  have hB2m : evaluateBasis n (a-1) 2 t
      = (t - knot n (a-1)) / (knot n (a+1) - knot n (a-1)) * evaluateBasis n (a-1) 1 t
        + (knot n (a+2) - t) / (knot n (a+2) - knot n a) * evaluateBasis n a 1 t := by
    rw [evaluateBasis_two n (a-1) t, g1, g2, g3, if_pos hD1, if_pos hD2]
  have hB2r : evaluateBasis n a 2 t
      = (t - knot n a) / (knot n (a+2) - knot n a) * evaluateBasis n a 1 t := by
    rw [evaluateBasis_two n a t, hZ2, if_pos hD2]
    split_ifs <;> simp
  rw [hB2l, hB2m, hB2r, hL, hR]
  field_simp
  ring

lemma partition_interior (n a : ℕ) (t : ℚ) (h3 : 3 ≤ n) (ha2 : 2 ≤ a) (han : a < n)
    (hlow : knot n a ≤ t) (hhigh : t < knot n (a+1)) :
    ∑ i in Finset.range n, evaluateBasis n i 2 t = 1 := by
  have htop : t < (n : ℚ) - 2 := lt_of_lt_of_le hhigh (knot_le_max n h3 (by omega))
  have hsub : Finset.Icc (a-2) a ⊆ Finset.range n := by
    intro x hx
    rw [Finset.mem_Icc] at hx
    rw [Finset.mem_range]
    omega
  have hzero : ∀ x ∈ Finset.range n, x ∉ Finset.Icc (a-2) a → evaluateBasis n x 2 t = 0 := by
    intro x hx hnx
    rw [Finset.mem_range] at hx
    rw [Finset.mem_Icc] at hnx
    refine basis_support n h3 2 x t (by omega) htop ?_
    by_cases hxa : x + 2 ≤ a
    · refine Or.inr (le_trans (knot_mono n h3 (by omega) (by omega)) hlow)
    · have hax : a < x := by omega
      exact Or.inl (lt_of_lt_of_le hhigh (knot_mono n h3 (by omega) (by omega)))
  rw [← Finset.sum_subset hsub hzero]
  have hset : Finset.Icc (a-2) a = {a-2, a-1, a} := by
    ext x
    simp only [Finset.mem_Icc, Finset.mem_insert, Finset.mem_singleton]
    omega
  rw [hset, Finset.sum_insert (by simp; omega), Finset.sum_insert (by simp; omega),
    Finset.sum_singleton, ← add_assoc]
  exact basis2_window_sum n a t h3 ha2 han hlow hhigh

end MyB_spline

namespace MyB_spline

lemma ite_mul_zero (c : Prop) [Decidable c] (x : ℚ) : (if c then x * 0 else 0) = 0 := by
  split_ifs <;> simp

lemma knot_nn (n : ℕ) (h3 : 3 ≤ n) : knot n n = (n : ℚ) - 2 :=
  knot_last_three n h3 (le_refl n) (by omega)

lemma basis0_end (n : ℕ) (h3 : 3 ≤ n) :
    ∀ i, i ≤ n + 1 → evaluateBasis n i 0 ((n : ℚ) - 2) = if i = n - 1 then 1 else 0 := by
  intro i hi
  rw [evaluateBasis_zero]
  by_cases hie : i = n - 1
  · rw [if_pos (Or.inr ⟨(knot_np2 n h3).symm, hie⟩), if_pos hie]
  · rw [if_neg, if_neg hie]
    rintro (⟨hle, hlt⟩ | ⟨_, hieq⟩)
    · have := knot_le_max n h3 (show i + 1 < n + 3 by omega)
      linarith
    · exact hie hieq

lemma basis1_end (n : ℕ) (h3 : 3 ≤ n) :
    ∀ i, i ≤ n → evaluateBasis n i 1 ((n : ℚ) - 2) = if i = n - 1 then 1 else 0 := by
  have hd1 : ((n : ℚ) - 2) - ((n : ℚ) - 3) ≠ 0 := by
    intro hc
    linarith
  intro i hi
  by_cases hie : i = n - 1
  · subst hie
    have e1 : n - 1 + 1 = n := by omega
    have e2 : n - 1 + 2 = n + 1 := by omega
    have hB0a : evaluateBasis n (n-1) 0 ((n : ℚ) - 2) = 1 := by
      rw [basis0_end n h3 (n-1) (by omega)]
      exact if_pos rfl
    have hB0b : evaluateBasis n (n-1+1) 0 ((n : ℚ) - 2) = 0 := by
      rw [basis0_end n h3 (n-1+1) (by omega)]
      exact if_neg (by omega)
    rw [evaluateBasis_one, hB0a, hB0b, ite_mul_zero, add_zero, mul_one, e1,
      knot_pred n h3, knot_nn n h3, if_pos hd1, if_pos rfl]
    exact div_self hd1
  · have hB0i : evaluateBasis n i 0 ((n : ℚ) - 2) = 0 := by
      rw [basis0_end n h3 i (by omega)]
      exact if_neg hie
    rw [evaluateBasis_one, hB0i, ite_mul_zero, zero_add, if_neg hie]
    by_cases hi1 : i + 1 = n - 1
    · have hB0s : evaluateBasis n (i+1) 0 ((n : ℚ) - 2) = 1 := by
        rw [basis0_end n h3 (i+1) (by omega)]
        exact if_pos hi1
      rw [hB0s, mul_one]
      have e : i + 2 = n := by omega
      rw [e, knot_nn n h3, sub_self, zero_div]
      split_ifs <;> rfl
    · have hB0s : evaluateBasis n (i+1) 0 ((n : ℚ) - 2) = 0 := by
        rw [basis0_end n h3 (i+1) (by omega)]
        exact if_neg hi1
      rw [hB0s, ite_mul_zero]

lemma basis2_end (n : ℕ) (h3 : 3 ≤ n) :
    ∀ i, i < n → evaluateBasis n i 2 ((n : ℚ) - 2) = if i = n - 1 then 1 else 0 := by
  have hd1 : ((n : ℚ) - 2) - ((n : ℚ) - 3) ≠ 0 := by
    intro hc
    linarith
  intro i hi
  by_cases hie : i = n - 1
  · subst hie
    have e2 : n - 1 + 2 = n + 1 := by omega
    have hB1a : evaluateBasis n (n-1) 1 ((n : ℚ) - 2) = 1 := by
      rw [basis1_end n h3 (n-1) (by omega)]
      exact if_pos rfl
    have hB1b : evaluateBasis n (n-1+1) 1 ((n : ℚ) - 2) = 0 := by
      rw [basis1_end n h3 (n-1+1) (by omega)]
      exact if_neg (by omega)
    rw [evaluateBasis_two, hB1a, hB1b, ite_mul_zero, add_zero, mul_one, e2,
      knot_pred n h3, knot_last_three n h3 (by omega : n ≤ n + 1) (by omega),
      if_pos hd1, if_pos rfl]
    exact div_self hd1
  · have hB1i : evaluateBasis n i 1 ((n : ℚ) - 2) = 0 := by
      rw [basis1_end n h3 i (by omega)]
      exact if_neg hie
    rw [evaluateBasis_two, hB1i, ite_mul_zero, zero_add, if_neg hie]
    by_cases hi1 : i + 1 = n - 1
    · have hB1s : evaluateBasis n (i+1) 1 ((n : ℚ) - 2) = 1 := by
        rw [basis1_end n h3 (i+1) (by omega)]
        exact if_pos hi1
      rw [hB1s, mul_one]
      have e : i + 3 = n + 1 := by omega
      rw [e, knot_last_three n h3 (by omega : n ≤ n + 1) (by omega), sub_self, zero_div]
      split_ifs <;> rfl
    · have hB1s : evaluateBasis n (i+1) 1 ((n : ℚ) - 2) = 0 := by
        rw [basis1_end n h3 (i+1) (by omega)]
        exact if_neg hi1
      rw [hB1s, ite_mul_zero]

lemma partition_endpoint (n : ℕ) (h3 : 3 ≤ n) :
    ∑ i in Finset.range n, evaluateBasis n i 2 ((n : ℚ) - 2) = 1 := by
  have hcong : ∀ i ∈ Finset.range n,
      evaluateBasis n i 2 ((n : ℚ) - 2) = if i = n - 1 then (1:ℚ) else 0 := by
    intro i hi
    rw [Finset.mem_range] at hi
    exact basis2_end n h3 i hi
  rw [Finset.sum_congr rfl hcong,
    Finset.sum_ite_eq' (Finset.range n) (n-1) (fun _ => (1:ℚ)),
    if_pos (Finset.mem_range.mpr (by omega))]

end MyB_spline

namespace MyB_spline

lemma partition_of_unity_aux (n : ℕ) (t : ℚ) (h3 : 3 ≤ n) (h0 : 0 ≤ t)
    (h1 : t ≤ (n : ℚ) - 2) :
    ∑ i in Finset.range n, evaluateBasis n i 2 t = 1 := by
  rcases eq_or_lt_of_le h1 with heq | hlt
  · rw [heq]
    exact partition_endpoint n h3
  · have hfl0 : 0 ≤ ⌊t⌋ := Int.floor_nonneg.mpr h0
    have hflub : ⌊t⌋ ≤ (n : ℤ) - 3 := by
      have hq : ((⌊t⌋ : ℤ) : ℚ) < (((n : ℤ) - 2 : ℤ) : ℚ) := by
        have hcast : (((n : ℤ) - 2 : ℤ) : ℚ) = (n : ℚ) - 2 := by push_cast; ring
        have := Int.floor_le t
        rw [hcast]
        linarith
      have : ⌊t⌋ < (n : ℤ) - 2 := by exact_mod_cast hq
      omega
    have haz : ((2 + ⌊t⌋.toNat : ℕ) : ℤ) = 2 + ⌊t⌋ := by
      push_cast [Int.toNat_of_nonneg hfl0]
      ring
    have ha2 : 2 ≤ 2 + ⌊t⌋.toNat := by omega
    have han : 2 + ⌊t⌋.toNat < n := by omega
    have hlow : knot n (2 + ⌊t⌋.toNat) ≤ t := by
      rw [knot_eq_clamp n (2 + ⌊t⌋.toNat) h3 (by omega)]
      rw [show (max 0 (min (((2 + ⌊t⌋.toNat : ℕ) : ℤ) - 2) ((n : ℤ) - 2)) : ℤ) = ⌊t⌋ by omega]
      exact Int.floor_le t
    have hhigh : t < knot n (2 + ⌊t⌋.toNat + 1) := by
      rw [knot_eq_clamp n (2 + ⌊t⌋.toNat + 1) h3 (by omega)]
      rw [show (max 0 (min (((2 + ⌊t⌋.toNat + 1 : ℕ) : ℤ) - 2) ((n : ℤ) - 2)) : ℤ) = ⌊t⌋ + 1
        by omega]
      have := Int.lt_floor_add_one t
      push_cast
      linarith
    exact partition_interior n (2 + ⌊t⌋.toNat) t h3 ha2 han hlow hhigh

lemma findSpan_empty (n : ℕ) (t : ℚ) : findSpan knotsAtFitTime n t = n - 1 := by
  rw [findSpan, knotsAtFitTime]
  rw [List.find?_eq_none.mpr]
  · rfl
  · intro j _
    simp

lemma fitBasisRow_empty (span : ℕ) (t : ℚ) :
    fitBasisRow knotsAtFitTime span t = [0, 0, 0] := by
  rw [fitBasisRow, knotsAtFitTime, show List.range' 1 2 = [1, 2] from rfl]
  rw [List.foldl_cons, List.foldl_cons, List.foldl_nil]
  rw [show basisRowStep [] span t 1 [1, 0, 0] = [0, 0, 0] by
    rw [basisRowStep, show List.range 1 = [0] from rfl]
    norm_num]
  rw [basisRowStep, show List.range 2 = [0, 1] from rfl]
  norm_num

end MyB_spline

namespace TorusKnot

lemma hasDerivAt_cos_mul (c t : ℝ) :
    HasDerivAt (fun s : ℝ => Real.cos (c * s)) (-Real.sin (c * t) * c) t := by
  have h : HasDerivAt (fun s : ℝ => c * s) c t := by
    simpa using (hasDerivAt_id t).const_mul c
  simpa [Function.comp] using (Real.hasDerivAt_cos (c * t)).comp t h

lemma hasDerivAt_sin_mul (c t : ℝ) :
    HasDerivAt (fun s : ℝ => Real.sin (c * s)) (Real.cos (c * t) * c) t := by
  have h : HasDerivAt (fun s : ℝ => c * s) c t := by
    simpa using (hasDerivAt_id t).const_mul c
  simpa [Function.comp] using (Real.hasDerivAt_sin (c * t)).comp t h

lemma hd_pos_x (t : ℝ) :
    HasDerivAt (fun s : ℝ => (2 + Real.cos (3 * s)) * Real.cos (2 * s)) ((deriv1 t).1) t := by
  have h := ((hasDerivAt_const t (2:ℝ)).add (hasDerivAt_cos_mul 3 t)).mul
    (hasDerivAt_cos_mul 2 t)
  convert h using 1
  simp [deriv1]
  ring

lemma hd_pos_y (t : ℝ) :
    HasDerivAt (fun s : ℝ => (2 + Real.cos (3 * s)) * Real.sin (2 * s)) ((deriv1 t).2.1) t := by
  have h := ((hasDerivAt_const t (2:ℝ)).add (hasDerivAt_cos_mul 3 t)).mul
    (hasDerivAt_sin_mul 2 t)
  convert h using 1
  simp [deriv1]
  ring

lemma hd_pos_z (t : ℝ) :
    HasDerivAt (fun s : ℝ => Real.sin (3 * s)) ((deriv1 t).2.2) t := by
  have h := hasDerivAt_sin_mul 3 t
  convert h using 1
  simp [deriv1]
  ring

lemma hd_d1_x (t : ℝ) :
    HasDerivAt
      (fun s : ℝ => -2 * (2 + Real.cos (3 * s)) * Real.sin (2 * s)
        - 3 * Real.sin (3 * s) * Real.cos (2 * s))
      ((deriv2 t).1) t := by
  have hA := (((hasDerivAt_const t (-2:ℝ)).mul
      ((hasDerivAt_const t (2:ℝ)).add (hasDerivAt_cos_mul 3 t))).mul
    (hasDerivAt_sin_mul 2 t))
  have hB := (((hasDerivAt_const t (3:ℝ)).mul (hasDerivAt_sin_mul 3 t)).mul
    (hasDerivAt_cos_mul 2 t))
  have h := hA.sub hB
  convert h using 1
  simp [deriv2]
  ring

lemma hd_d1_y (t : ℝ) :
    HasDerivAt
      (fun s : ℝ => 2 * (2 + Real.cos (3 * s)) * Real.cos (2 * s)
        - 3 * Real.sin (3 * s) * Real.sin (2 * s))
      ((deriv2 t).2.1) t := by
  have hA := (((hasDerivAt_const t (2:ℝ)).mul
      ((hasDerivAt_const t (2:ℝ)).add (hasDerivAt_cos_mul 3 t))).mul
    (hasDerivAt_cos_mul 2 t))
  have hB := (((hasDerivAt_const t (3:ℝ)).mul (hasDerivAt_sin_mul 3 t)).mul
    (hasDerivAt_sin_mul 2 t))
  have h := hA.sub hB
  convert h using 1
  simp [deriv2]
  ring

lemma hd_d1_z (t : ℝ) :
    HasDerivAt (fun s : ℝ => 3 * Real.cos (3 * s)) ((deriv2 t).2.2) t := by
  have h := (hasDerivAt_cos_mul 3 t).const_mul (3:ℝ)
  convert h using 1
  simp [deriv2]
  ring

lemma position_zero_val : position 0 = (3, 0, 0) := by
  rw [position]
  norm_num

lemma position_end_val : position (6 * Real.pi) = (3, 0, 0) := by
  have hc3 : Real.cos (3 * (6 * Real.pi)) = 1 := by
    rw [show (3:ℝ) * (6 * Real.pi) = (9:ℤ) * (2 * Real.pi) by push_cast; ring]
    exact Real.cos_int_mul_two_pi 9
  have hs3 : Real.sin (3 * (6 * Real.pi)) = 0 := by
    rw [show (3:ℝ) * (6 * Real.pi) = (18:ℤ) * Real.pi by push_cast; ring]
    exact Real.sin_int_mul_pi 18
  have hc2 : Real.cos (2 * (6 * Real.pi)) = 1 := by
    rw [show (2:ℝ) * (6 * Real.pi) = (6:ℤ) * (2 * Real.pi) by push_cast; ring]
    exact Real.cos_int_mul_two_pi 6
  have hs2 : Real.sin (2 * (6 * Real.pi)) = 0 := by
    rw [show (2:ℝ) * (6 * Real.pi) = (12:ℤ) * Real.pi by push_cast; ring]
    exact Real.sin_int_mul_pi 12
  rw [position, hc3, hs3, hc2, hs2]
  norm_num

lemma getD_set_other (l : List (Option (ℝ × ℝ × ℝ))) (j r : ℕ) (v : Option (ℝ × ℝ × ℝ))
    (hj : j ≠ r) : (l.set j v).getD r none = l.getD r none := by
  rw [List.getD_eq_getElem?_getD, List.getElem?_set_ne hj, ← List.getD_eq_getElem?_getD]

lemma getD_set_here (l : List (Option (ℝ × ℝ × ℝ))) (j : ℕ) (v : Option (ℝ × ℝ × ℝ))
    (hj : j < l.length) : (l.set j v).getD j none = v := by
  rw [List.getD_eq_getElem?_getD, List.getElem?_set_self hj]
  rfl

lemma tk_eval_getD_zero (t : ℝ) (d : ℕ) :
    (eval t d).getD 0 none = some (position t) := by
  have base : ((List.replicate (d+1) (none : Option (ℝ × ℝ × ℝ))).set 0
      (some (position t))).getD 0 none = some (position t) :=
    getD_set_here _ 0 _ (by simp)
  rw [eval]
  split_ifs with ha hb
  · rw [getD_set_other _ 2 0 _ (by omega), getD_set_other _ 1 0 _ (by omega)]
    exact base
  · rw [getD_set_other _ 2 0 _ (by omega)]
    exact base
  · rw [getD_set_other _ 1 0 _ (by omega)]
    exact base
  · exact base

lemma tk_eval_getD_one (t : ℝ) (d : ℕ) (hd : 1 ≤ d) :
    (eval t d).getD 1 none = some (deriv1 t) := by
  rw [eval]
  split_ifs with ha hb
  · rw [getD_set_other _ 2 1 _ (by omega)]
    exact getD_set_here _ 1 _ (by simp; omega)
  · exact absurd hd (by omega)
  · exact getD_set_here _ 1 _ (by simp; omega)
  · exact absurd hd (by omega)

lemma eval_getD_two (t : ℝ) (d : ℕ) (hd : 2 ≤ d) :
    (eval t d).getD 2 none = some (deriv2 t) := by
  rw [eval]
  split_ifs with ha hb
  · exact getD_set_here _ 2 _ (by simp; omega)
  · exact absurd hd (by omega)
  · exact absurd hd (by omega)
  · exact absurd hd (by omega)

lemma tk_eval_getD_one_of_zero (t : ℝ) : (eval t 0).getD 1 none = none := by
  rw [eval]
  rw [if_neg (by omega), if_neg (by omega)]
  rw [getD_set_other _ 0 1 _ (by omega), List.getD_eq_getElem?_getD]
  rfl

lemma eval_getD_two_of_lt (t : ℝ) (d : ℕ) (hd : d < 2) :
    (eval t d).getD 2 none = none := by
  rw [eval]
  rw [if_neg (by omega)]
  have hrep : (List.replicate (d+1) (none : Option (ℝ × ℝ × ℝ))).getD 2 none = none := by
    rw [List.getD_eq_getElem?_getD, List.getElem?_replicate]
    split_ifs <;> rfl
  split_ifs with hb
  · rw [getD_set_other _ 1 2 _ (by omega), getD_set_other _ 0 2 _ (by omega)]
    exact hrep
  · rw [getD_set_other _ 0 2 _ (by omega)]
    exact hrep

end TorusKnot

/-
  Claim theorems.
-/

/-- C1 (counterexample): with `degree = 0` the stored table is *not* the
original control polygon unchanged: the closure correction still
overwrites the last entry with the first.  On the unit square it yields
`[(0,0,0),(1,0,0),(1,1,0),(0,0,0)] ≠ squarePts`, and evaluating at the
last sample parameter `t = 3/(4-1) = 1` returns `(0,0,0)`, not the
original fourth control point `(0,1,0)`. -/
theorem degree_zero_not_identity_cex :
    ClosedSubdivisionCurve.laneRiesenfeldSubdivision squarePts 0 ≠ squarePts
    ∧ ClosedSubdivisionCurve.position (ClosedSubdivisionCurve.laneRiesenfeldSubdivision squarePts 0) 1
      ≠ squarePts.getD 3 0 := by
  have hval : ClosedSubdivisionCurve.laneRiesenfeldSubdivision squarePts 0
      = [(0,0,0), (1,0,0), (1,1,0), ((0:ℚ),(0:ℚ),(0:ℚ))] := rfl
  constructor
  · intro h
    have h3 := congrArg (fun l => l.getD 3 0) h
    simp [ClosedSubdivisionCurve.laneRiesenfeldSubdivision, ClosedSubdivisionCurve.forceClosure,
      ClosedSubdivisionCurve.refineOnce, squarePts, Prod.ext_iff] at h3
  · rw [hval]
    rw [ClosedSubdivisionCurve.position_one _ (by decide)]
    intro h
    simp [squarePts, Prod.ext_iff] at h

/-- C1 (amended): for `degree = 0` the subdivision leaves every entry of
the control polygon unchanged *except* the last, which the closure
correction overwrites with the first; evaluation at the sample
parameters `t_i = i/(n-1)` therefore reproduces `controlPoints[i]` for
`i < n-1` and returns `controlPoints[0]` at `i = n-1`. -/
theorem degree_zero_table_and_samples (pts : List V3) (h : 2 ≤ pts.length) :
    ClosedSubdivisionCurve.laneRiesenfeldSubdivision pts 0
      = pts.set (pts.length - 1) (pts.getD 0 0)
    ∧ ∀ i : ℕ, i < pts.length →
        ClosedSubdivisionCurve.position (ClosedSubdivisionCurve.laneRiesenfeldSubdivision pts 0)
          ((i : ℚ) / ((pts.length : ℚ) - 1))
          = (pts.set (pts.length - 1) (pts.getD 0 0)).getD i 0 := by
  have h0 : ClosedSubdivisionCurve.laneRiesenfeldSubdivision pts 0
      = ClosedSubdivisionCurve.forceClosure pts := by
    rw [ClosedSubdivisionCurve.laneRiesenfeldSubdivision, Function.iterate_zero_apply]
  have h1 : ClosedSubdivisionCurve.forceClosure pts
      = pts.set (pts.length - 1) (pts.getD 0 0) := by
    rw [ClosedSubdivisionCurve.forceClosure, if_pos (by omega)]
  refine ⟨h0.trans h1, ?_⟩
  intro i hi
  have hlen : (pts.set (pts.length - 1) (pts.getD 0 0)).length = pts.length := by simp
  rw [h0, h1]
  refine ClosedSubdivisionCurve.position_at_int _ _ i (by omega) (by omega) ?_
  rw [ClosedSubdivisionCurve.scaled_t, hlen]
  have hne : ((pts.length : ℚ) - 1) ≠ 0 := by
    have : (2:ℚ) ≤ (pts.length : ℚ) := by exact_mod_cast h
    intro hc
    linarith
  field_simp

/-- C1 (amended, witness): instantiated on the unit square. -/
theorem degree_zero_table_and_samples_witness :
    ClosedSubdivisionCurve.laneRiesenfeldSubdivision squarePts 0
      = squarePts.set (squarePts.length - 1) (squarePts.getD 0 0)
    ∧ ∀ i : ℕ, i < squarePts.length →
        ClosedSubdivisionCurve.position (ClosedSubdivisionCurve.laneRiesenfeldSubdivision squarePts 0)
          ((i : ℚ) / ((squarePts.length : ℚ) - 1))
          = (squarePts.set (squarePts.length - 1) (squarePts.getD 0 0)).getD i 0 :=
  degree_zero_table_and_samples squarePts (by decide)

/-- C2 (code bug): constructor 2 runs `leastSquaresFit` *before*
`generateKnotVector`, so the fit sees a knot vector of dimension 0:
every access `_knotVector[j]` (the first being `j = k = 2`) is out of
bounds.  Modelling the out-of-bounds reads as 0: the span search finds
no span and falls back to `n - 1`, every basis denominator is `0 - 0`,
and the computed row of local basis weights is identically zero, so the
basis matrix `N` is the zero matrix and the normal matrix `NᵗN` is
singular — no control points reproducing the sampled path can result. -/
theorem leastSquaresFit_uses_ungenerated_knots (n span : ℕ) (t : ℚ) :
    MyB_spline.knotsAtFitTime.length = 0
    ∧ MyB_spline.knotsAtFitTime.get? 2 = none
    ∧ MyB_spline.findSpan MyB_spline.knotsAtFitTime n t = n - 1
    ∧ MyB_spline.fitBasisRow MyB_spline.knotsAtFitTime span t = [0, 0, 0] :=
  ⟨rfl, rfl, MyB_spline.findSpan_empty n t, MyB_spline.fitBasisRow_empty span t⟩

/-- C3: partition of unity.  For any `n ≥ 3` and any `t` in the declared
domain `[getStartP, getEndP]`, the degree-2 basis values over
`i = 0 .. n-1` sum to exactly 1 (hence certainly within tolerance
`1e-5`), including at the final parameter where the closure exception of
the degree-0 base case applies. -/
theorem basis_partition_of_unity (n : ℕ) (t : ℚ) (h3 : 3 ≤ n)
    (h0 : MyB_spline.getStartP n ≤ t) (h1 : t ≤ MyB_spline.getEndP n) :
    ∑ i in Finset.range n, MyB_spline.evaluateBasis n i 2 t = 1 := by
  rw [MyB_spline.getStartP_eq n h3] at h0
  rw [MyB_spline.getEndP_eq n h3] at h1
  exact MyB_spline.partition_of_unity_aux n t h3 h0 h1

/-- C3 helper facts packaging the domain bounds of the witness input. -/
lemma witness_domain_four : MyB_spline.getStartP 4 ≤ 1 ∧ (1:ℚ) ≤ MyB_spline.getEndP 4 := by
  rw [MyB_spline.getStartP_eq 4 (by norm_num), MyB_spline.getEndP_eq 4 (by norm_num)]
  norm_num

/-- C3 (witness): `n = 4`, `t = 1`. -/
theorem basis_partition_of_unity_witness :
    ∑ i in Finset.range 4, MyB_spline.evaluateBasis 4 i 2 1 = 1 :=
  basis_partition_of_unity 4 1 (by decide) witness_domain_four.1 witness_domain_four.2

/-- C4: `TorusKnot::eval` returns the position
`((R+cos qt)cos pt, (R+cos qt)sin pt, sin qt)` with `p=2`, `q=3`,
`R=2.0`; slot 1 carries `deriv1` exactly when `d ≥ 1` and slot 2
carries `deriv2` exactly when `d ≥ 2`; and componentwise, `deriv1` is
the exact derivative of the position and `deriv2` the exact derivative
of `deriv1`. -/
theorem torus_eval_exact (t : ℝ) (d : ℕ) :
    TorusKnot.position t
      = ((2 + Real.cos (3 * t)) * Real.cos (2 * t),
         (2 + Real.cos (3 * t)) * Real.sin (2 * t),
         Real.sin (3 * t))
    ∧ (TorusKnot.eval t d).getD 0 none = some (TorusKnot.position t)
    ∧ (TorusKnot.eval t d).getD 1 none
        = (if 1 ≤ d then some (TorusKnot.deriv1 t) else none)
    ∧ (TorusKnot.eval t d).getD 2 none
        = (if 2 ≤ d then some (TorusKnot.deriv2 t) else none)
    ∧ HasDerivAt (fun s => (TorusKnot.position s).1) ((TorusKnot.deriv1 t).1) t
    ∧ HasDerivAt (fun s => (TorusKnot.position s).2.1) ((TorusKnot.deriv1 t).2.1) t
    ∧ HasDerivAt (fun s => (TorusKnot.position s).2.2) ((TorusKnot.deriv1 t).2.2) t
    ∧ HasDerivAt (fun s => (TorusKnot.deriv1 s).1) ((TorusKnot.deriv2 t).1) t
    ∧ HasDerivAt (fun s => (TorusKnot.deriv1 s).2.1) ((TorusKnot.deriv2 t).2.1) t
    ∧ HasDerivAt (fun s => (TorusKnot.deriv1 s).2.2) ((TorusKnot.deriv2 t).2.2) t := by
  refine ⟨rfl, TorusKnot.tk_eval_getD_zero t d, ?_, ?_, TorusKnot.hd_pos_x t,
    TorusKnot.hd_pos_y t, TorusKnot.hd_pos_z t, TorusKnot.hd_d1_x t,
    TorusKnot.hd_d1_y t, TorusKnot.hd_d1_z t⟩
  · by_cases hd : 1 ≤ d
    · rw [if_pos hd]
      exact TorusKnot.tk_eval_getD_one t d hd
    · rw [if_neg hd]
      have hz : d = 0 := by omega
      rw [hz]
      exact TorusKnot.tk_eval_getD_one_of_zero t
  · by_cases hd : 2 ≤ d
    · rw [if_pos hd]
      exact TorusKnot.eval_getD_two t d hd
    · rw [if_neg hd]
      exact TorusKnot.eval_getD_two_of_lt t d (by omega)

/-- C5: closure at the domain ends.  For every control polygon with at
least two points and every degree, the subdivision curve's position at
`t = 0` equals its position at `t = 1` (exactly, thanks to the forced
closure), and the torus knot's position at `t = 0` equals its position
at `t = 6π`. -/
theorem closure_at_domain_ends (pts : List V3) (g : ℕ) (h : 2 ≤ pts.length) :
    ClosedSubdivisionCurve.position (ClosedSubdivisionCurve.laneRiesenfeldSubdivision pts g) 0
      = ClosedSubdivisionCurve.position (ClosedSubdivisionCurve.laneRiesenfeldSubdivision pts g) 1
    ∧ TorusKnot.position 0 = TorusKnot.position (6 * Real.pi) := by
  constructor
  · have hlen : (ClosedSubdivisionCurve.laneRiesenfeldSubdivision pts g).length
        = 2 ^ g * pts.length := ClosedSubdivisionCurve.length_laneRiesenfeldSubdivision pts g
    have h2 : 2 ≤ (ClosedSubdivisionCurve.laneRiesenfeldSubdivision pts g).length := by
      rw [hlen]
      calc 2 ≤ pts.length := h
        _ ≤ 2 ^ g * pts.length := Nat.le_mul_of_pos_left _ (Nat.pos_pow_of_pos g (by omega))
    rw [ClosedSubdivisionCurve.position_zero _ h2, ClosedSubdivisionCurve.position_one _ h2]
    exact (ClosedSubdivisionCurve.lrs_last_eq_first pts g h).symm
  · rw [TorusKnot.position_zero_val, TorusKnot.position_end_val]

/-- C5 (witness): the unit square with degree 1. -/
theorem closure_at_domain_ends_witness :
    ClosedSubdivisionCurve.position (ClosedSubdivisionCurve.laneRiesenfeldSubdivision squarePts 1) 0
      = ClosedSubdivisionCurve.position (ClosedSubdivisionCurve.laneRiesenfeldSubdivision squarePts 1) 1
    ∧ TorusKnot.position 0 = TorusKnot.position (6 * Real.pi) :=
  closure_at_domain_ends squarePts 1 (by decide)

/-- C6: the stored table has exactly `n * 2^degree` entries and its last
entry equals its first. -/
theorem subdivision_table_size_and_closure (pts : List V3) (g : ℕ) (h : 2 ≤ pts.length) :
    (ClosedSubdivisionCurve.laneRiesenfeldSubdivision pts g).length = pts.length * 2 ^ g
    ∧ (ClosedSubdivisionCurve.laneRiesenfeldSubdivision pts g).getD
        ((ClosedSubdivisionCurve.laneRiesenfeldSubdivision pts g).length - 1) 0
      = (ClosedSubdivisionCurve.laneRiesenfeldSubdivision pts g).getD 0 0 := by
  constructor
  · rw [ClosedSubdivisionCurve.length_laneRiesenfeldSubdivision]
    ring
  · exact ClosedSubdivisionCurve.lrs_last_eq_first pts g h

/-- C6 (witness): the spec's example scenario, a 4-point unit square with
degree 1: an 8-entry table whose entry 7 equals entry 0. -/
theorem subdivision_table_size_and_closure_witness :
    (ClosedSubdivisionCurve.laneRiesenfeldSubdivision squarePts 1).length = squarePts.length * 2 ^ 1
    ∧ (ClosedSubdivisionCurve.laneRiesenfeldSubdivision squarePts 1).getD
        ((ClosedSubdivisionCurve.laneRiesenfeldSubdivision squarePts 1).length - 1) 0
      = (ClosedSubdivisionCurve.laneRiesenfeldSubdivision squarePts 1).getD 0 0 :=
  subdivision_table_size_and_closure squarePts 1 (by decide)

/-- C7: for `t` in `[0,1]` and a table of size at least 2, the position
and first derivative computed by `eval` match the spec's formulas (index
`floor(t(N-1)) mod N` with mathematical modulus, fractional-part
interpolation weight, central difference scaled by 0.5), and the `_p`
slots carry exactly those values. -/
theorem subdivision_eval_matches_spec (table : List V3) (t : ℚ)
    (hN : 2 ≤ table.length) (h0 : 0 ≤ t) (h1 : t ≤ 1) :
    ClosedSubdivisionCurve.position table t = SubdivisionSpec.position table t
    ∧ ClosedSubdivisionCurve.deriv1 table t = SubdivisionSpec.deriv1 table t
    ∧ (∀ d : ℕ, (ClosedSubdivisionCurve.eval table t d).getD 0 none
        = some (SubdivisionSpec.position table t))
    ∧ (∀ d : ℕ, 1 ≤ d → (ClosedSubdivisionCurve.eval table t d).getD 1 none
        = some (SubdivisionSpec.deriv1 table t)) := by
  have hsc : SubdivisionSpec.scaled table t = ClosedSubdivisionCurve.scaled_t table t := rfl
  have hidx : SubdivisionSpec.idx table t = ⌊ClosedSubdivisionCurve.scaled_t table t⌋ := by
    rw [SubdivisionSpec.idx, hsc,
      Int.emod_eq_of_lt (ClosedSubdivisionCurve.floor_scaled_nonneg table t hN h0)
        (ClosedSubdivisionCurve.floor_scaled_lt table t hN h0 h1)]
  have hpos : ClosedSubdivisionCurve.position table t = SubdivisionSpec.position table t := by
    rw [ClosedSubdivisionCurve.position, SubdivisionSpec.position,
      ClosedSubdivisionCurve.alpha_eq_fract table t hN h0 h1,
      ClosedSubdivisionCurve.index_eq_floor table t hN h0 h1,
      ClosedSubdivisionCurve.nextIdx_eq_emod table t hN h0 h1,
      hidx, SubdivisionSpec.frac, hsc]
  have hder : ClosedSubdivisionCurve.deriv1 table t = SubdivisionSpec.deriv1 table t := by
    rw [ClosedSubdivisionCurve.deriv1, SubdivisionSpec.deriv1,
      ClosedSubdivisionCurve.nextIdx_eq_emod table t hN h0 h1,
      ClosedSubdivisionCurve.prevIdx_eq_emod table t hN h0 h1, hidx]
  refine ⟨hpos, hder, ?_, ?_⟩
  · intro d
    rw [ClosedSubdivisionCurve.sd_eval_getD_zero, hpos]
  · intro d hd
    rw [ClosedSubdivisionCurve.sd_eval_getD_one table t d hd, hder]

/-- C7 (witness): a 3-point table at `t = 1`. -/
theorem subdivision_eval_matches_spec_witness :
    ClosedSubdivisionCurve.position triPts 1 = SubdivisionSpec.position triPts 1
    ∧ ClosedSubdivisionCurve.deriv1 triPts 1 = SubdivisionSpec.deriv1 triPts 1
    ∧ (∀ d : ℕ, (ClosedSubdivisionCurve.eval triPts 1 d).getD 0 none
        = some (SubdivisionSpec.position triPts 1))
    ∧ (∀ d : ℕ, 1 ≤ d → (ClosedSubdivisionCurve.eval triPts 1 d).getD 1 none
        = some (SubdivisionSpec.deriv1 triPts 1)) :=
  subdivision_eval_matches_spec triPts 1 (by decide) zero_le_one (le_refl 1)

/-- C8: `generateKnotVector` produces a non-decreasing knot vector of
length `n + k + 1` (`k = 2`) whose first `k+1` entries are 0, whose
interior entries are the integers `i - k`, and whose last `k+1` entries
all equal the single maximum value `m - 2(k+1) + 1` derived from the
total knot count `m = n + k + 1`. -/
theorem knot_vector_shape (n : ℕ) (h3 : 3 ≤ n) :
    (MyB_spline.generateKnotVector n).length = n + 2 + 1
    ∧ (∀ i j : ℕ, i ≤ j → j < n + 3 → MyB_spline.knot n i ≤ MyB_spline.knot n j)
    ∧ (∀ i : ℕ, i ≤ 2 → MyB_spline.knot n i = 0)
    ∧ (∀ i : ℕ, 2 < i → i < n → MyB_spline.knot n i = (i : ℚ) - 2)
    ∧ (∀ i : ℕ, n ≤ i → i < n + 3 →
        MyB_spline.knot n i = ((n : ℚ) + 3) - 2 * (2 + 1) + 1) := by
  refine ⟨MyB_spline.length_generateKnotVector n, ?_, ?_, ?_, ?_⟩
  · intro i j hij hj
    exact MyB_spline.knot_mono n h3 hij hj
  · intro i hi
    rw [MyB_spline.knot_eq_clamp n i h3 (by omega),
      show (max 0 (min ((i:ℤ) - 2) ((n:ℤ) - 2)) : ℤ) = 0 by omega]
    norm_num
  · intro i hi2 hin
    rw [MyB_spline.knot_eq_clamp n i h3 (by omega),
      show (max 0 (min ((i:ℤ) - 2) ((n:ℤ) - 2)) : ℤ) = (i:ℤ) - 2 by omega]
    push_cast
    ring
  · intro i hni hi
    rw [MyB_spline.knot_last_three n h3 hni hi]
    ring

/-- C8 (witness): `n = 5`. -/
theorem knot_vector_shape_witness :
    (MyB_spline.generateKnotVector 5).length = 5 + 2 + 1
    ∧ (∀ i j : ℕ, i ≤ j → j < 5 + 3 → MyB_spline.knot 5 i ≤ MyB_spline.knot 5 j)
    ∧ (∀ i : ℕ, i ≤ 2 → MyB_spline.knot 5 i = 0)
    ∧ (∀ i : ℕ, 2 < i → i < 5 → MyB_spline.knot 5 i = (i : ℚ) - 2)
    ∧ (∀ i : ℕ, 5 ≤ i → i < 5 + 3 →
        MyB_spline.knot 5 i = ((5 : ℚ) + 3) - 2 * (2 + 1) + 1) :=
  knot_vector_shape 5 (by decide)

/-- C9 (counterexample): at `d = 2` both `ClosedSubdivisionCurve::eval`
and `MyB_spline::eval` return normally — no error, no sentinel — with
the order-2 slot of `_p` left unassigned (`none` in the model, read via
a `some 0` default so the result can only be `none` if the slot exists
and was never written). -/
theorem unsupported_order_cex :
    (ClosedSubdivisionCurve.eval triPts 0 2).getD 2 (some 0) = none
    ∧ (MyB_spline.eval triPts 0 2).getD 2 (some 0) = none :=
  ⟨ClosedSubdivisionCurve.eval_getD_ge_two triPts 0 2 2 (by decide) (by decide),
   MyB_spline.eval_getD_pos triPts 0 2 2 (by decide) (by decide)⟩

/-- C9 (amended): for every requested derivative order `d ≥ 2`, both
curve evaluations return normally and leave every slot of order
`2 ≤ j ≤ d` unassigned, rather than failing with an error or writing a
sentinel. -/
theorem unsupported_order_left_unset (table cps : List V3) (t : ℚ) (d j : ℕ)
    (h2 : 2 ≤ j) (hjd : j ≤ d) :
    (ClosedSubdivisionCurve.eval table t d).getD j (some 0) = none
    ∧ (MyB_spline.eval cps t d).getD j (some 0) = none :=
  ⟨ClosedSubdivisionCurve.eval_getD_ge_two table t d j h2 hjd,
   MyB_spline.eval_getD_pos cps t d j (by omega) hjd⟩

/-- C9 (amended, witness): concrete tables at `d = 3`, slot `j = 2`. -/
theorem unsupported_order_left_unset_witness :
    (ClosedSubdivisionCurve.eval triPts 0 3).getD 2 (some 0) = none
    ∧ (MyB_spline.eval triPts 0 3).getD 2 (some 0) = none :=
  unsupported_order_left_unset triPts triPts 0 3 2 (by decide) (by decide)

/-- C10: for `t` in `[0,1]` and a table of size `N ≥ 2`, all three
indices `eval` computes — `index`, `(index+1) % N` and
`(index-1+N) % N` — lie in `[0, N-1]`, so every table access in `eval`
is in bounds. -/
theorem eval_indices_in_bounds (table : List V3) (t : ℚ)
    (hN : 2 ≤ table.length) (h0 : 0 ≤ t) (h1 : t ≤ 1) :
    (0 ≤ ClosedSubdivisionCurve.index table t
      ∧ ClosedSubdivisionCurve.index table t ≤ (table.length : ℤ) - 1
      ∧ (ClosedSubdivisionCurve.index table t).toNat < table.length)
    ∧ (0 ≤ ClosedSubdivisionCurve.nextIdx table t
      ∧ ClosedSubdivisionCurve.nextIdx table t ≤ (table.length : ℤ) - 1
      ∧ (ClosedSubdivisionCurve.nextIdx table t).toNat < table.length)
    ∧ (0 ≤ ClosedSubdivisionCurve.prevIdx table t
      ∧ ClosedSubdivisionCurve.prevIdx table t ≤ (table.length : ℤ) - 1
      ∧ (ClosedSubdivisionCurve.prevIdx table t).toNat < table.length) := by
  obtain ⟨ha, hb⟩ := ClosedSubdivisionCurve.index_bounds table t hN h0 h1
  obtain ⟨hc, hd⟩ := ClosedSubdivisionCurve.nextIdx_bounds table t hN h0 h1
  obtain ⟨he, hf⟩ := ClosedSubdivisionCurve.prevIdx_bounds table t hN h0 h1
  refine ⟨⟨ha, by omega, by omega⟩, ⟨hc, by omega, by omega⟩, ⟨he, by omega, by omega⟩⟩

/-- C10 (witness): the 3-point table at `t = 1`. -/
theorem eval_indices_in_bounds_witness :
    (0 ≤ ClosedSubdivisionCurve.index triPts 1
      ∧ ClosedSubdivisionCurve.index triPts 1 ≤ (triPts.length : ℤ) - 1
      ∧ (ClosedSubdivisionCurve.index triPts 1).toNat < triPts.length)
    ∧ (0 ≤ ClosedSubdivisionCurve.nextIdx triPts 1
      ∧ ClosedSubdivisionCurve.nextIdx triPts 1 ≤ (triPts.length : ℤ) - 1
      ∧ (ClosedSubdivisionCurve.nextIdx triPts 1).toNat < triPts.length)
    ∧ (0 ≤ ClosedSubdivisionCurve.prevIdx triPts 1
      ∧ ClosedSubdivisionCurve.prevIdx triPts 1 ≤ (triPts.length : ℤ) - 1
      ∧ (ClosedSubdivisionCurve.prevIdx triPts 1).toNat < triPts.length) :=
  eval_indices_in_bounds triPts 1 (by decide) zero_le_one (le_refl 1)
